import Mathlib

/-!
Verification development for the grammy-sep-template repository.

The repository centres on a string-keyed storage-adapter abstraction:
an in-memory adapter with optional TTL (lazy eviction), several
read-mutate-write middleware lifecycles (`createStoragePlugin`,
`createTextVaultPlugin`), a key builder, a session bridge with key
prefixing, and a versioned-value wrapper.  Every definition below is a
shallow embedding of a concrete function of the source; JavaScript
`Map`s become association lists with unique keys (insertion order
preserved, as JS guarantees), `Date.now()` becomes an explicit `Nat`
time parameter, `undefined` becomes `Option.none`, and `async` is
erased (every adapter in the repository completes synchronously).
-/

namespace GrammySep

/-! ## Association-list model of a JavaScript `Map` -/

/-- `Map.get`: the value of the first (in a well-formed map: only)
binding of `k`. -/
def mapGet {α : Type} : List (String × α) → String → Option α
  | [], _ => none
  | (k', v) :: rest, k => if k' = k then some v else mapGet rest k

/-- `Map.set`: replace the binding in place when the key is present
(JS keeps the original insertion position), append otherwise. -/
def mapSet {α : Type} : List (String × α) → String → α → List (String × α)
  | [], k, v => [(k, v)]
  | (k', v') :: rest, k, v =>
    if k' = k then (k, v) :: rest else (k', v') :: mapSet rest k v

/-- `Map.delete`: remove the binding of `k`. -/
def mapDelete {α : Type} : List (String × α) → String → List (String × α)
  | [], _ => []
  | (k', v') :: rest, k =>
    if k' = k then rest else (k', v') :: mapDelete rest k

/-- A JS `Map` never holds two bindings for one key. -/
def keysNodup {α : Type} (m : List (String × α)) : Prop :=
  (m.map Prod.fst).Nodup

/-! ## In-memory storage adapter with optional TTL
(`src/storage/memory.ts`, `MemoryStorageAdapter`) -/

/-- The `ttlMilliseconds?: number` option: absent, `Infinity`, or a
finite number of milliseconds. -/
inductive TTLOption : Type
  | unset : TTLOption
  | infinite : TTLOption
  | finite (n : Nat) : TTLOption
deriving DecidableEq

/-- `MemoryEntry<T>`: a value plus an optional absolute expiry time. -/
structure MemoryEntry (T : Type) where
  value : T
  expiresAt : Option Nat
deriving DecidableEq

/-- The `MemoryStorageAdapter<T>` state: its construction option and its
backing `Map`. -/
structure MemoryStorageAdapter (T : Type) where
  ttlMilliseconds : TTLOption
  store : List (String × MemoryEntry T)
deriving DecidableEq

/-- `MemoryStorageAdapter.computeExpiry`: `undefined` when the option is
absent, `0` (JS falsy) or `Infinity`; otherwise `Date.now() + ttl`. -/
def computeExpiry (ttl : TTLOption) (now : Nat) : Option Nat :=
  match ttl with
  | .unset => none
  | .infinite => none
  | .finite n => if n = 0 then none else some (now + n)

/-- `MemoryStorageAdapter.read`: absent key gives `undefined`; an entry
whose `expiresAt` is truthy (nonzero) and `<= Date.now()` is deleted and
reported absent (lazy eviction); otherwise the value is returned. -/
def memRead {T : Type} (a : MemoryStorageAdapter T) (now : Nat) (k : String) :
    Option T × MemoryStorageAdapter T :=
  match mapGet a.store k with
  | none => (none, a)
  | some e =>
    match e.expiresAt with
    | none => (some e.value, a)
    | some x =>
      if x ≠ 0 ∧ x ≤ now then (none, { a with store := mapDelete a.store k })
      else (some e.value, a)

/-- `MemoryStorageAdapter.write`: store `{value, expiresAt}` under `k`,
overwriting any previous entry. -/
def memWrite {T : Type} (a : MemoryStorageAdapter T) (now : Nat) (k : String) (v : T) :
    MemoryStorageAdapter T :=
  { a with store := mapSet a.store k ⟨v, computeExpiry a.ttlMilliseconds now⟩ }

/-- `MemoryStorageAdapter.delete`: unconditionally remove the mapping. -/
def memDelete {T : Type} (a : MemoryStorageAdapter T) (k : String) :
    MemoryStorageAdapter T :=
  { a with store := mapDelete a.store k }

/-! ## The `createStoragePlugin` middleware (`src/mod.ts`)

The plugin is exercised with `createInMemoryAdapter` (a plain `Map`
with no TTL), modelled by `SimpleMem`.  One middleware invocation is a
deterministic function of the configuration, the resolved storage key,
the adapter state, and the behaviour of the downstream handler; it
produces a trace of observable events, the final adapter state, and
whether the downstream exception propagated. -/

/-- `createInMemoryAdapter`: a plain `Map<string, T>`. -/
def SimpleMem (T : Type) : Type := List (String × T)

/-- Observable events of one middleware invocation, in order. -/
inductive Ev (T : Type) : Type
  | readEv (k : String) (result : Option T)
  | writeEv (k : String) (v : T)
  | deleteEv (k : String)
  | nextCalled
  | nextOk
  | nextThrew
  | postStep
deriving DecidableEq

/-- The plugin's per-request mutable variables `loaded`, `exists`,
`cleared`, `dirty` captured by the `StorageItem` closures. -/
structure ItemState (T : Type) where
  loaded : Option T
  existsVar : Bool
  cleared : Bool
  dirty : Bool

/-- A mutating call downstream logic can make on `ctx.storageItem`
(`get`/`getOr`/`exists` read the state and change nothing). -/
inductive ItemOp (T : Type) : Type
  | setOp (v : T)
  | updateOp (f : Option T → T)
  | clearOp

/-- What the downstream handler does: which handle mutations it performs,
and whether it then throws. -/
structure Downstream (T : Type) where
  ops : List (ItemOp T)
  throws : Bool

/-- `item.get()`: `exists && !cleared ? loaded : undefined`. -/
def itemGet {T : Type} (st : ItemState T) : Option T :=
  if st.existsVar && !st.cleared then st.loaded else none

/-- `item.exists()`: `exists && !cleared`. -/
def itemExists {T : Type} (st : ItemState T) : Bool :=
  st.existsVar && !st.cleared

/-- Effect of one `StorageItem` mutator on the captured variables,
line for line from `set`/`update`/`clear` in `createStoragePlugin`. -/
def applyOp {T : Type} (st : ItemState T) (op : ItemOp T) : ItemState T :=
  match op with
  | .setOp v => { loaded := some v, existsVar := true, cleared := false, dirty := true }
  | .updateOp f =>
      { loaded := some (f (itemGet st)), existsVar := true, cleared := false, dirty := true }
  | .clearOp => { loaded := none, existsVar := false, cleared := true, dirty := true }

/-- The variable initialisation at the top of the middleware body:
`loaded = initialRead; exists = loaded !== undefined; dirty = false;
cleared = false;` then
`if (!exists && initial !== undefined) { loaded = initial(); exists = true;
dirty = persistInitial; }`. -/
def initItemState {T : Type} (r : Option T) (ini : Option (Unit → T))
    (persistInitial : Bool) : ItemState T :=
  match r with
  | some v => { loaded := some v, existsVar := true, cleared := false, dirty := false }
  | none =>
    match ini with
    | some f =>
        { loaded := some (f ()), existsVar := true, cleared := false, dirty := persistInitial }
    | none => { loaded := none, existsVar := false, cleared := false, dirty := false }

/-- Result of one middleware invocation: the event trace, the adapter
state after the request, and whether a downstream exception propagated
out of the middleware. -/
structure RunOut (T : Type) where
  trace : List (Ev T)
  mem : SimpleMem T
  threw : Bool

/-- The `finally` block of `createStoragePlugin`:
`if (dirty) { if (!item.exists()) await adapter.delete(storageKey);
else await adapter.write(storageKey, loaded as T); }`.
When `item.exists()` holds, `loaded` is provably `some` (see
`itemExists_loaded_isSome`); the `none` fallback mirrors the observable
effect of `write(key, undefined)` on the `Map`-backed adapter, whose
`read` then reports absence. -/
def finallyStep {T : Type} (k : String) (st : ItemState T) (mem : SimpleMem T) :
    List (Ev T) × SimpleMem T :=
  if st.dirty then
    if itemExists st = false then ([Ev.deleteEv k], mapDelete mem k)
    else
      match st.loaded with
      | some v => ([Ev.writeEv k v], mapSet mem k v)
      | none => ([Ev.deleteEv k], mapDelete mem k)
  else ([], mem)

/-- One invocation of the middleware returned by `createStoragePlugin`,
with the storage key already resolved (`keyRes` is the result of the
`key` option applied to the context).  The `try { await next() } finally
{ ... }` block means the persist-or-delete step runs whether or not the
downstream handler throws, and the exception then propagates. -/
def runStoragePlugin {T : Type} (ini : Option (Unit → T)) (persistInitial : Bool)
    (keyRes : Option String) (d : Downstream T) (mem : SimpleMem T) : RunOut T :=
  match keyRes with
  | none =>
    -- `if (storageKey === undefined) { await next(); return; }`
    { trace := [Ev.nextCalled, if d.throws then Ev.nextThrew else Ev.nextOk]
      mem := mem
      threw := d.throws }
  | some k =>
    let initialRead := mapGet mem k
    let st0 := initItemState initialRead ini persistInitial
    let st1 := d.ops.foldl applyOp st0
    let post := finallyStep k st1 mem
    { trace := [Ev.readEv k initialRead, Ev.nextCalled,
                if d.throws then Ev.nextThrew else Ev.nextOk,
                Ev.postStep] ++ post.1
      mem := post.2
      threw := d.throws }

/-! ## The `createTextVaultPlugin` storage middleware (`plugin.ts` of the
text-vault template) -/

/-- `TextVaultState`: the stored record. -/
structure TextVaultState : Type where
  entries : List String
  lastSavedAt : Option Nat
deriving DecidableEq

/-- A mutating call downstream logic can make on `ctx.textVault`
(`list`/`isEmpty` change nothing).  `removeOp` carries the JS integer
index passed to `remove`. -/
inductive VaultOp : Type
  | addOp (text : String)
  | removeOp (index : Int)
  | clearOp

/-- Effect of one `TextVaultHandle` mutator on `(entries, dirty)` in the
`enabled` case, line for line from `add`/`remove`/`clear`. -/
def vaultApply (st : List String × Bool) (op : VaultOp) : List String × Bool :=
  match op with
  | .addOp text =>
    let trimmed := text.trim
    if trimmed = "" then st else (trimmed :: st.1, true)
  | .removeOp i =>
    if 0 ≤ i ∧ i < st.1.length then ((st.1.eraseIdx i.toNat), true) else st
  | .clearOp =>
    if st.1 = [] then st else ([], true)

/-- One invocation of the storage middleware installed by
`createTextVaultPlugin` (the `composer.use` callback), with the storage
key already resolved.  There is no `try`/`finally` here: when the
downstream handler throws, the persist step is skipped. -/
def runTextVault (keyRes : Option String) (initial : Unit → TextVaultState)
    (ops : List VaultOp) (throws : Bool) (mem : SimpleMem TextVaultState)
    (now : Nat) : RunOut TextVaultState :=
  match keyRes with
  | none =>
    -- `enabled` is false: every handle mutator returns early, and the
    -- persist step starts with `if (!enabled || !dirty) return;`
    { trace := [Ev.nextCalled, if throws then Ev.nextThrew else Ev.nextOk]
      mem := mem
      threw := throws }
  | some k =>
    let r := mapGet mem k
    let st0 := r.getD (initial ())
    let step := ops.foldl vaultApply (st0.entries, false)
    let preTrace := [Ev.readEv k r, Ev.nextCalled,
                     if throws then Ev.nextThrew else Ev.nextOk]
    if throws then
      { trace := preTrace, mem := mem, threw := true }
    else if step.2 = false then
      { trace := preTrace, mem := mem, threw := false }
    else if step.1 = [] then
      { trace := preTrace ++ [Ev.deleteEv k], mem := mapDelete mem k, threw := false }
    else
      { trace := preTrace ++ [Ev.writeEv k ⟨step.1, some now⟩]
        mem := mapSet mem k ⟨step.1, some now⟩
        threw := false }

/-! ## Key builders and the session bridge -/

/-- The narrow view of the host framework's context that the key
builders consult: `ctx.chat?.id` (also surfaced as `ctx.chatId`) and
`ctx.from?.id`. -/
structure BotCtx : Type where
  chatId : Option Int
  fromId : Option Int

/-- `defaultKey` (`src/mod.ts`, also `plugin.ts` of the text-vault
template): `const id = ctx.chat?.id ?? ctx.from?.id;
return id === undefined ? undefined : String(id);`. -/
def defaultKey (ctx : BotCtx) : Option String :=
  match ctx.chatId with
  | some i => some (toString i)
  | none =>
    match ctx.fromId with
    | some i => some (toString i)
    | none => none

/-- `defaultGetStorageKey` (`src/plugin.ts`):
`return ctx.chatId?.toString();`. -/
def defaultGetStorageKey (ctx : BotCtx) : Option String :=
  ctx.chatId.map toString

/-- `defaultKeyBuilder` (`src/plugin/storage_bridge.ts`):
`(ctx) => ctx.chatId?.toString()`. -/
def defaultKeyBuilder (ctx : BotCtx) : Option String :=
  ctx.chatId.map toString

/-- `createSessionBridge(...).getSessionKey` (`src/plugin/storage_bridge.ts`):
`const key = await buildKey(ctx); return key ? prefix + key : undefined;`.
A JS string is falsy exactly when it is empty. -/
def getSessionKey {C : Type} (buildKey : C → Option String) (pfx : String)
    (ctx : C) : Option String :=
  match buildKey ctx with
  | none => none
  | some s => if s = "" then none else some (pfx ++ s)

/-! ## The versioned-value wrapper (`src/plugin/mod.ts`, `versionedStorage`) -/

/-- The JavaScript values a stored record can be, as far as truthiness
is concerned (`undefined` is `Option.none` one level up). -/
inductive JSValue : Type
  | num (n : Int)
  | str (s : String)
  | boolean (b : Bool)
  | nullValue
deriving DecidableEq

/-- JS falsiness: `0`, `""`, `false` and `null` are falsy. -/
def JSValue.falsy : JSValue → Bool
  | .num n => n == 0
  | .str s => s == ""
  | .boolean b => !b
  | .nullValue => true

/-- `versionedStorage(...).readVersioned`:
`const value = await read(); if (!value) return undefined;
return { version, value } as const;`. -/
def readVersioned {V : Type} (version : V) (readResult : Option JSValue) :
    Option (V × JSValue) :=
  match readResult with
  | none => none
  | some v => if v.falsy then none else some (version, v)

/-! ## Lazy enumeration of the TTL adapter
(`iterateKeys` / `iterateValues` / `iterateEntries`)

Each generator walks the keys of the backing `Map` and re-runs `read`
per key, so each step sees the `Date.now()` of the moment the consumer
pulls it; the `times` list supplies that per-step clock.  `read` only
ever deletes the key it was asked for, so iterating the key list
captured at the start is observationally the JS live-`Map` iteration. -/

/-- `iterateEntries`, over an explicit key list with per-step clocks:
`for key of store.keys(): const value = this.read(key);
if (value !== undefined) yield [key, value]`. -/
def iterEntriesAux {T : Type} :
    List String → List Nat → MemoryStorageAdapter T →
    List (String × T) × MemoryStorageAdapter T
  | [], _, a => ([], a)
  | k :: ks, ts, a =>
    let p := memRead a (ts.headD 0) k
    let rest := iterEntriesAux ks ts.tail p.2
    match p.1 with
    | some v => ((k, v) :: rest.1, rest.2)
    | none => rest

/-- `iterateKeys`: `for key of store.keys():
if (this.read(key) !== undefined) yield key`. -/
def iterKeysAux {T : Type} :
    List String → List Nat → MemoryStorageAdapter T →
    List String × MemoryStorageAdapter T
  | [], _, a => ([], a)
  | k :: ks, ts, a =>
    let p := memRead a (ts.headD 0) k
    let rest := iterKeysAux ks ts.tail p.2
    match p.1 with
    | some _ => (k :: rest.1, rest.2)
    | none => rest

/-- `iterateValues`: `for key of store.keys():
const value = this.read(key); if (value !== undefined) yield value`. -/
def iterValuesAux {T : Type} :
    List String → List Nat → MemoryStorageAdapter T →
    List T × MemoryStorageAdapter T
  | [], _, a => ([], a)
  | k :: ks, ts, a =>
    let p := memRead a (ts.headD 0) k
    let rest := iterValuesAux ks ts.tail p.2
    match p.1 with
    | some v => (v :: rest.1, rest.2)
    | none => rest

/-- `MemoryStorageAdapter.readAllEntries`, fully consumed with per-step
clocks `ts`. -/
def readAllEntries {T : Type} (a : MemoryStorageAdapter T) (ts : List Nat) :
    List (String × T) × MemoryStorageAdapter T :=
  iterEntriesAux (a.store.map Prod.fst) ts a

/-- `MemoryStorageAdapter.readAllKeys`, fully consumed with per-step
clocks `ts`. -/
def readAllKeys {T : Type} (a : MemoryStorageAdapter T) (ts : List Nat) :
    List String × MemoryStorageAdapter T :=
  iterKeysAux (a.store.map Prod.fst) ts a

/-- `MemoryStorageAdapter.readAllValues`, fully consumed with per-step
clocks `ts`. -/
def readAllValues {T : Type} (a : MemoryStorageAdapter T) (ts : List Nat) :
    List T × MemoryStorageAdapter T :=
  iterValuesAux (a.store.map Prod.fst) ts a

/-! ## Trace observation helpers -/

/-- Whether an event is an adapter `write`. -/
def isWriteEv {T : Type} : Ev T → Bool
  | .writeEv _ _ => true
  | _ => false

/-- Whether an event is the invocation of the downstream handler. -/
def isNextCalledEv {T : Type} : Ev T → Bool
  | .nextCalled => true
  | _ => false

/-- The adapter writes a trace performs before the downstream handler
is invoked. -/
def writesBeforeNext {T : Type} (tr : List (Ev T)) : List (Ev T) :=
  (tr.takeWhile fun e => !(isNextCalledEv e)).filter isWriteEv

/-! ## Helper lemmas about the Map model -/

theorem mapGet_cons_eq {α : Type} (rest : List (String × α)) (k k' : String) (v' : α)
    (h : k' = k) : mapGet ((k', v') :: rest) k = some v' := by
  simp [mapGet, h]

theorem mapGet_cons_ne {α : Type} (rest : List (String × α)) (k k' : String) (v' : α)
    (h : k' ≠ k) : mapGet ((k', v') :: rest) k = mapGet rest k := by
  simp [mapGet, h]

theorem mapSet_cons_eq {α : Type} (rest : List (String × α)) (k k' : String) (v v' : α)
    (h : k' = k) : mapSet ((k', v') :: rest) k v = (k, v) :: rest := by
  simp [mapSet, h]

theorem mapSet_cons_ne {α : Type} (rest : List (String × α)) (k k' : String) (v v' : α)
    (h : k' ≠ k) : mapSet ((k', v') :: rest) k v = (k', v') :: mapSet rest k v := by
  simp [mapSet, h]

theorem mapDelete_cons_eq {α : Type} (rest : List (String × α)) (k k' : String) (v' : α)
    (h : k' = k) : mapDelete ((k', v') :: rest) k = rest := by
  simp [mapDelete, h]

theorem mapDelete_cons_ne {α : Type} (rest : List (String × α)) (k k' : String) (v' : α)
    (h : k' ≠ k) : mapDelete ((k', v') :: rest) k = (k', v') :: mapDelete rest k := by
  simp [mapDelete, h]

theorem mapGet_mapSet_self {α : Type} (m : List (String × α)) (k : String) (v : α) :
    mapGet (mapSet m k v) k = some v := by
  induction m with
  | nil => simp [mapSet, mapGet]
  | cons p rest ih =>
    obtain ⟨k', v'⟩ := p
    by_cases h : k' = k
    · simp [mapSet, mapGet, h]
    · simp [mapSet, mapGet, h, ih]

theorem mapGet_mapSet_ne {α : Type} (m : List (String × α)) (k k' : String) (v : α)
    (h : k ≠ k') : mapGet (mapSet m k v) k' = mapGet m k' := by
  induction m with
  | nil => simp [mapSet, mapGet, h]
  | cons p rest ih =>
    obtain ⟨k0, v0⟩ := p
    by_cases h0 : k0 = k
    · subst h0; simp [mapSet, mapGet, h]
    · simp only [mapSet, if_neg h0, mapGet]
      by_cases h1 : k0 = k'
      · simp [h1]
      · simp [h1, ih]

theorem mapGet_mapDelete_ne {α : Type} (m : List (String × α)) (k k' : String)
    (h : k ≠ k') : mapGet (mapDelete m k) k' = mapGet m k' := by
  induction m with
  | nil => simp [mapDelete]
  | cons p rest ih =>
    obtain ⟨k0, v0⟩ := p
    by_cases h0 : k0 = k
    · subst h0; simp [mapDelete, mapGet, h]
    · simp only [mapDelete, if_neg h0, mapGet]
      by_cases h1 : k0 = k'
      · simp [h1]
      · simp [h1, ih]

theorem mem_keys_mapSet {α : Type} (m : List (String × α)) (k k0 : String) (v : α)
    (hmem : k0 ∈ (mapSet m k v).map Prod.fst) : k0 ∈ m.map Prod.fst ∨ k0 = k := by
  induction m with
  | nil =>
    right
    simpa [mapSet] using hmem
  | cons q qs ihq =>
    obtain ⟨kq, vq⟩ := q
    by_cases hq : kq = k
    · rw [mapSet_cons_eq qs k kq v vq hq] at hmem
      simp only [List.map_cons, List.mem_cons] at hmem
      rcases hmem with h1 | h1
      · exact Or.inr h1
      · exact Or.inl (List.mem_cons_of_mem _ h1)
    · rw [mapSet_cons_ne qs k kq v vq hq] at hmem
      simp only [List.map_cons, List.mem_cons] at hmem
      rcases hmem with h1 | h1
      · exact Or.inl (by simp [h1])
      · rcases ihq h1 with h2 | h2
        · exact Or.inl (List.mem_cons_of_mem _ h2)
        · exact Or.inr h2

theorem keysNodup_mapSet {α : Type} (m : List (String × α)) (k : String) (v : α)
    (h : keysNodup m) : keysNodup (mapSet m k v) := by
  induction m with
  | nil => simp [mapSet, keysNodup]
  | cons p rest ih =>
    obtain ⟨k0, v0⟩ := p
    simp only [keysNodup, List.map_cons, List.nodup_cons] at h
    by_cases h0 : k0 = k
    · rw [mapSet_cons_eq rest k k0 v v0 h0]
      simp only [keysNodup, List.map_cons, List.nodup_cons]
      subst h0
      exact h
    · have hrest := ih h.2
      rw [mapSet_cons_ne rest k k0 v v0 h0]
      simp only [keysNodup, List.map_cons, List.nodup_cons]
      refine ⟨?_, hrest⟩
      intro hmem
      rcases mem_keys_mapSet rest k k0 v hmem with h1 | h1
      · exact h.1 h1
      · exact h0 h1

theorem mapGet_eq_none_of_not_mem_keys {α : Type} (m : List (String × α)) (k : String)
    (h : k ∉ m.map Prod.fst) : mapGet m k = none := by
  induction m with
  | nil => simp [mapGet]
  | cons q qs ihq =>
    obtain ⟨kq, vq⟩ := q
    simp only [List.map_cons, List.mem_cons, not_or] at h
    rw [mapGet_cons_ne qs k kq vq (fun hh => h.1 hh.symm)]
    exact ihq h.2

theorem mapGet_mapDelete_self {α : Type} (m : List (String × α)) (k : String)
    (h : keysNodup m) : mapGet (mapDelete m k) k = none := by
  induction m with
  | nil => simp [mapDelete, mapGet]
  | cons p rest ih =>
    obtain ⟨k0, v0⟩ := p
    simp only [keysNodup, List.map_cons, List.nodup_cons] at h
    by_cases h0 : k0 = k
    · rw [mapDelete_cons_eq rest k k0 v0 h0]
      subst h0
      exact mapGet_eq_none_of_not_mem_keys rest k0 h.1
    · rw [mapDelete_cons_ne rest k k0 v0 h0, mapGet_cons_ne _ k k0 v0 h0]
      exact ih h.2

/-! ## Claims about the TTL adapter: C9 and C1 -/

/-- Claim C9: constructing the TTL in-memory adapter with
`ttlMilliseconds = 0` yields an adapter whose entries never expire:
`computeExpiry` treats `0` the same as an unconfigured or infinite TTL
(the `!this.options.ttlMilliseconds` falsiness check), so for every key
`k` and value `v`, `write(k, v)` followed by `read(k)` at any later time
returns `v`. -/
theorem ttl_zero_never_expires {T : Type} (store : List (String × MemoryEntry T))
    (k : String) (v : T) (wt rt now : Nat) :
    computeExpiry (TTLOption.finite 0) now = computeExpiry TTLOption.unset now
  ∧ computeExpiry (TTLOption.finite 0) now = computeExpiry TTLOption.infinite now
  ∧ (memRead (memWrite ⟨TTLOption.finite 0, store⟩ wt k v) rt k).1 = some v := by
  refine ⟨rfl, rfl, ?_⟩
  unfold memWrite memRead
  rw [show computeExpiry (TTLOption.finite 0) wt = none from rfl, mapGet_mapSet_self]

/-- Claim C1 counterexample: with `ttlMilliseconds = 0` — a finite
configured TTL — a read 100 ms after the write (hence at least 0 ms
after it) still returns the value instead of absent, because
`computeExpiry` treats the falsy `0` as "no expiry". -/
theorem ttl_read_after_expiry_counterexample :
    (memRead (memWrite ⟨TTLOption.finite 0, []⟩ 0 "k" (42 : Nat)) 100 "k").1 ≠ none := by
  decide

/-- Claim C1 (amended: "finite `ttlMilliseconds = n`" must read "finite
positive `ttlMilliseconds = n`", since a configured `0` is falsy and
disables expiry — see the counterexample): for the in-memory adapter,
with no finite TTL configured (absent or `Infinity`), `write(k, v)`
followed by `read(k)` returns `v`; with a finite positive
`ttlMilliseconds = n`, `read(k)` performed at least `n` ms after
`write(k, v)` returns absent and removes the entry from the backing map,
while `read(k)` performed less than `n` ms after the write returns `v`. -/
theorem ttl_adapter_round_trip_and_expiry {T : Type}
    (store : List (String × MemoryEntry T)) (k : String) (v : T)
    (wt d n rt : Nat) (hnd : keysNodup store) (hn : 0 < n) :
    ((memRead (memWrite ⟨TTLOption.finite n, store⟩ wt k v) (wt + d) k).1
        = if n ≤ d then none else some v)
  ∧ (n ≤ d →
      mapGet (memRead (memWrite ⟨TTLOption.finite n, store⟩ wt k v) (wt + d) k).2.store k
        = none)
  ∧ (memRead (memWrite ⟨TTLOption.unset, store⟩ wt k v) rt k).1 = some v
  ∧ (memRead (memWrite ⟨TTLOption.infinite, store⟩ wt k v) rt k).1 = some v := by
  have hn0 : n ≠ 0 := Nat.pos_iff_ne_zero.mp hn
  have hwn : wt + n ≠ 0 := by omega
  refine ⟨?_, ?_, ?_, ?_⟩
  · unfold memWrite memRead
    simp only [computeExpiry, if_neg hn0]
    rw [mapGet_mapSet_self]
    by_cases hd : n ≤ d
    · have hle : wt + n ≤ wt + d := by omega
      simp [hd, hwn, hle]
    · have hle : ¬ (wt + n ≤ wt + d) := by omega
      simp [hd, hwn, hle]
  · intro hd
    unfold memWrite memRead
    simp only [computeExpiry, if_neg hn0]
    rw [mapGet_mapSet_self]
    have hle : wt + n ≤ wt + d := by omega
    simp only [ne_eq, hwn, not_false_eq_true, hle, and_self, if_pos]
    exact mapGet_mapDelete_self _ _ (keysNodup_mapSet _ _ _ hnd)
  · unfold memWrite memRead
    rw [show computeExpiry TTLOption.unset wt = none from rfl, mapGet_mapSet_self]
  · unfold memWrite memRead
    rw [show computeExpiry TTLOption.infinite wt = none from rfl, mapGet_mapSet_self]

/-- Claim C1 witness: the amended theorem applied to a 2 ms TTL, a write
at time 0 and a read at time 3. -/
theorem ttl_adapter_round_trip_and_expiry_witness :
    ((memRead (memWrite ⟨TTLOption.finite 2, []⟩ 0 "k" (5 : Nat)) (0 + 3) "k").1
        = if 2 ≤ 3 then none else some 5)
  ∧ (2 ≤ 3 →
      mapGet (memRead (memWrite ⟨TTLOption.finite 2, ([] : List (String × MemoryEntry Nat))⟩
          0 "k" 5) (0 + 3) "k").2.store "k" = none)
  ∧ (memRead (memWrite ⟨TTLOption.unset, []⟩ 0 "k" (5 : Nat)) 9 "k").1 = some 5
  ∧ (memRead (memWrite ⟨TTLOption.infinite, []⟩ 0 "k" (5 : Nat)) 9 "k").1 = some 5 :=
  ttl_adapter_round_trip_and_expiry [] "k" 5 0 3 2 9 (by simp [keysNodup]) (by decide)

/-! ## Claims about the versioned-value wrapper: C4 -/

/-- Claim C4 counterexample: a present stored value `0` is falsy, so
`readVersioned()` returns "no value" instead of the claimed
`{version, value: 0}` pair. -/
theorem readVersioned_counterexample :
    readVersioned (1 : Nat) (some (JSValue.num 0)) ≠ some (1, JSValue.num 0) := by
  decide

/-- Claim C4 (amended: `readVersioned()` returns "no value" not only
when the underlying read returns absent but also when it returns any
falsy value such as `0`, the empty string, `false` or `null`, because
the source guards with `if (!value)`; for every truthy present value `v`
it returns `{version, value: v}` where `version` is the tag supplied at
construction). -/
theorem readVersioned_spec {V : Type} (version : V) (v : JSValue) :
    readVersioned version (none : Option JSValue) = none
  ∧ (v.falsy = true → readVersioned version (some v) = none)
  ∧ (v.falsy = false → readVersioned version (some v) = some (version, v)) := by
  refine ⟨rfl, ?_, ?_⟩
  · intro h
    simp [readVersioned, h]
  · intro h
    simp [readVersioned, h]

/-- Claim C4 witness: the amended theorem at version tag `1` and the
truthy stored value `2`. -/
theorem readVersioned_spec_witness :
    readVersioned (1 : Nat) (some (JSValue.num 2)) = some (1, JSValue.num 2) :=
  (readVersioned_spec 1 (JSValue.num 2)).2.2 (by decide)

/-! ## Claims about the session bridge and key builders: C5 and C6 -/

/-- Claim C5 counterexample: when the key builder returns the empty
string with prefix `"p:"`, `getSessionKey` returns the no-key sentinel
`undefined` rather than the claimed resolved key `"p:" + "" = "p:"` —
the source's truthiness check `key ? prefix + key : undefined` collapses
an empty base key into "no key". -/
theorem getSessionKey_counterexample :
    getSessionKey (fun _ : Unit => some "") "p:" () = none
  ∧ getSessionKey (fun _ : Unit => some "") "p:" () ≠ some ("p:" ++ "") := by
  decide

/-- Claim C5 (amended: for every context for which the key builder
returns a NON-EMPTY string `b`, the resolved storage key is exactly the
configured prefix concatenated with `b`; "no key" arises when the
builder returns the no-key sentinel OR the empty string, so an
empty-string base key is not distinguishable from "no key"). -/
theorem getSessionKey_spec {C : Type} (buildKey : C → Option String) (pfx : String)
    (ctx : C) (b : String) :
    (buildKey ctx = some b → b ≠ "" → getSessionKey buildKey pfx ctx = some (pfx ++ b))
  ∧ (buildKey ctx = none → getSessionKey buildKey pfx ctx = none)
  ∧ (buildKey ctx = some "" → getSessionKey buildKey pfx ctx = none) := by
  refine ⟨?_, ?_, ?_⟩
  · intro hb hne
    simp [getSessionKey, hb, hne]
  · intro hb
    simp [getSessionKey, hb]
  · intro hb
    simp [getSessionKey, hb]

/-- Claim C5 witness: the amended theorem at prefix `"p:"` and base key
`"7"`, resolving to exactly `"p:7"`. -/
theorem getSessionKey_spec_witness :
    getSessionKey (fun _ : Unit => some "7") "p:" () = some ("p:" ++ "7") :=
  (getSessionKey_spec (fun _ : Unit => some "7") "p:" () "7").1 rfl (by decide)

/-- Claim C6 counterexample: on a context with no chat identifier and
sender identifier `7`, the default key builders of `plugin.ts`
(`defaultGetStorageKey`) and of the session bridge (`defaultKeyBuilder`)
return "no key" instead of falling back to the sender identifier; only
`createStoragePlugin`'s `defaultKey` performs the claimed fallback. -/
theorem default_key_builder_counterexample :
    defaultGetStorageKey ⟨none, some 7⟩ = none
  ∧ defaultKeyBuilder ⟨none, some 7⟩ = none
  ∧ defaultKey ⟨none, some 7⟩ = some (toString (7 : Int)) :=
  ⟨rfl, rfl, rfl⟩

/-- Claim C6 (amended: only `createStoragePlugin`'s `defaultKey` — also
used by the text-vault plugin — returns the chat identifier as a string
when present, falls back to the from/sender identifier when the chat
identifier is absent, and returns "no key" when neither is present; the
defaults of `plugin.ts` (`defaultGetStorageKey`) and of the session
bridge (`defaultKeyBuilder`) consult only the chat identifier and return
"no key" whenever it is absent, even when a sender identifier exists). -/
theorem default_key_builders_spec (c f : Int) (o : Option Int) :
    defaultKey ⟨some c, o⟩ = some (toString c)
  ∧ defaultKey ⟨none, some f⟩ = some (toString f)
  ∧ defaultKey ⟨none, none⟩ = none
  ∧ defaultGetStorageKey ⟨some c, o⟩ = some (toString c)
  ∧ defaultGetStorageKey ⟨none, o⟩ = none
  ∧ defaultKeyBuilder ⟨some c, o⟩ = some (toString c)
  ∧ defaultKeyBuilder ⟨none, o⟩ = none :=
  ⟨rfl, rfl, rfl, rfl, rfl, rfl, rfl⟩

/-! ## Helper lemmas about the storage-plugin lifecycle -/

theorem postStep_not_mem_finallyStep {T : Type} (k : String) (st : ItemState T)
    (mem : SimpleMem T) : Ev.postStep ∉ (finallyStep k st mem).1 := by
  unfold finallyStep
  by_cases h1 : st.dirty = true
  · simp only [if_pos h1]
    by_cases h2 : itemExists st = false
    · simp [h2]
    · simp only [if_neg h2]
      cases st.loaded <;> simp
  · simp [h1]

theorem initItemState_cleared {T : Type} (r : Option T) (ini : Option (Unit → T))
    (pi : Bool) : (initItemState r ini pi).cleared = false := by
  cases r <;> cases ini <;> rfl

theorem cleared_foldl {T : Type} (ops : List (ItemOp T)) (st : ItemState T)
    (h : st.cleared = true → st.dirty = true ∧ st.existsVar = false)
    (hc : (ops.foldl applyOp st).cleared = true) :
    (ops.foldl applyOp st).dirty = true ∧ (ops.foldl applyOp st).existsVar = false := by
  induction ops generalizing st with
  | nil => exact h hc
  | cons op rest ih =>
    simp only [List.foldl_cons] at hc ⊢
    refine ih (applyOp st op) ?_ hc
    cases op with
    | setOp v => intro hcl; simp [applyOp] at hcl
    | updateOp f => intro hcl; simp [applyOp] at hcl
    | clearOp => intro _; simp [applyOp]

theorem loaded_isSome_foldl {T : Type} (ops : List (ItemOp T)) (st : ItemState T)
    (h : itemExists st = true → st.loaded.isSome = true)
    (hex : itemExists (ops.foldl applyOp st) = true) :
    (ops.foldl applyOp st).loaded.isSome = true := by
  induction ops generalizing st with
  | nil => exact h hex
  | cons op rest ih =>
    simp only [List.foldl_cons] at hex ⊢
    refine ih (applyOp st op) ?_ hex
    cases op with
    | setOp v => intro _; simp [applyOp]
    | updateOp f => intro _; simp [applyOp]
    | clearOp => intro hh; simp [applyOp, itemExists] at hh

theorem itemExists_loaded_isSome {T : Type} (r : Option T) (ini : Option (Unit → T))
    (pi : Bool) (ops : List (ItemOp T))
    (hex : itemExists (ops.foldl applyOp (initItemState r ini pi)) = true) :
    (ops.foldl applyOp (initItemState r ini pi)).loaded.isSome = true := by
  refine loaded_isSome_foldl ops (initItemState r ini pi) ?_ hex
  intro h
  rcases r with _ | v
  · rcases ini with _ | f
    · simp [initItemState, itemExists] at h
    · simp [initItemState]
  · simp [initItemState]

/-! ## Claims about the `createStoragePlugin` lifecycle: C2, C3, C10, C7 -/

/-- Claim C2: for every request in which a storage key resolves and a
value is loaded (the adapter holds one, or an `initial()` factory is
configured), the post-delegation persist-or-delete step of
`createStoragePlugin` runs after downstream logic completes or fails,
exactly once per request — the trace holds exactly one `postStep`
event, at index 3, immediately after the downstream outcome at index 2
— including when downstream logic throws, and the downstream exception
still propagates out of the middleware. -/
theorem storage_plugin_post_step {T : Type} [DecidableEq T]
    (ini : Option (Unit → T)) (pi : Bool) (k : String) (d : Downstream T)
    (mem : SimpleMem T)
    (hload : (mapGet mem k).isSome = true ∨ ini.isSome = true) :
    (runStoragePlugin ini pi (some k) d mem).trace.count Ev.postStep = 1
  ∧ (runStoragePlugin ini pi (some k) d mem).trace.get? 2
      = some (if d.throws then Ev.nextThrew else Ev.nextOk)
  ∧ (runStoragePlugin ini pi (some k) d mem).trace.get? 3 = some Ev.postStep
  ∧ (runStoragePlugin ini pi (some k) d mem).threw = d.throws := by
  have hpost : Ev.postStep ∉ (finallyStep k (d.ops.foldl applyOp
      (initItemState (mapGet mem k) ini pi)) mem).1 :=
    postStep_not_mem_finallyStep _ _ _
  refine ⟨?_, rfl, rfl, rfl⟩
  simp only [runStoragePlugin]
  cases hthr : d.throws <;>
    simp [List.count_append, List.count_cons, List.count_eq_zero.mpr hpost]

/-- Claim C2 witness: the theorem applied to a request whose downstream
handler throws, with an `initial()` factory configured. -/
theorem storage_plugin_post_step_witness :
    (runStoragePlugin (some fun _ => (0 : Nat)) true (some "1")
        ⟨[], true⟩ []).trace.count Ev.postStep = 1
  ∧ (runStoragePlugin (some fun _ => (0 : Nat)) true (some "1")
        ⟨[], true⟩ []).trace.get? 2 = some Ev.nextThrew
  ∧ (runStoragePlugin (some fun _ => (0 : Nat)) true (some "1")
        ⟨[], true⟩ []).trace.get? 3 = some Ev.postStep
  ∧ (runStoragePlugin (some fun _ => (0 : Nat)) true (some "1")
        ⟨[], true⟩ []).threw = true :=
  storage_plugin_post_step (some fun _ => 0) true "1" ⟨[], true⟩ [] (Or.inr rfl)

/-- Claim C3 counterexample: with the default configuration
(`persistInitial = true`), an absent value and `initial = () => 7`, the
trace of one request shows no adapter write before `next()` is invoked —
the synthesized initial value is written only at the post-delegation
step, so the adapter write does not precede the downstream handler. -/
theorem eager_persist_counterexample :
    writesBeforeNext (runStoragePlugin (some fun _ => (7 : Nat)) true (some "1")
        ⟨[], false⟩ []).trace = []
  ∧ Ev.writeEv "1" 7 ∈ (runStoragePlugin (some fun _ => (7 : Nat)) true (some "1")
        ⟨[], false⟩ []).trace := by
  decide

/-- Claim C3 (amended: under the default configuration
(`persistInitial = true`) the synthesized initial value is only marked
dirty when created, so it is written to the adapter at the
post-delegation step, after downstream logic completes — the adapter
write never precedes the call to the downstream handler). -/
theorem initial_persisted_after_delegation {T : Type}
    (ini : Option (Unit → T)) (k : String) (d : Downstream T)
    (mem : SimpleMem T) (f : Unit → T)
    (hini : ini = some f) (habs : mapGet mem k = none)
    (hops : d.ops = []) (hthr : d.throws = false) :
    writesBeforeNext (runStoragePlugin ini true (some k) d mem).trace = []
  ∧ (runStoragePlugin ini true (some k) d mem).trace
      = [Ev.readEv k none, Ev.nextCalled, Ev.nextOk, Ev.postStep, Ev.writeEv k (f ())]
  ∧ (runStoragePlugin ini true (some k) d mem).mem = mapSet mem k (f ()) := by
  subst hini
  simp only [runStoragePlugin, habs, hops, hthr, List.foldl_nil]
  refine ⟨?_, ?_, ?_⟩ <;>
    simp [initItemState, finallyStep, itemExists, writesBeforeNext,
      isNextCalledEv, isWriteEv]

/-- Claim C3 witness: the amended theorem at `initial = () => 7`,
key `"1"`, an empty adapter and a downstream handler that neither
mutates nor throws. -/
theorem initial_persisted_after_delegation_witness :
    writesBeforeNext (runStoragePlugin (some fun _ => (7 : Nat)) true (some "1")
        ⟨[], false⟩ []).trace = []
  ∧ (runStoragePlugin (some fun _ => (7 : Nat)) true (some "1")
        ⟨[], false⟩ []).trace
      = [Ev.readEv "1" none, Ev.nextCalled, Ev.nextOk, Ev.postStep, Ev.writeEv "1" 7]
  ∧ (runStoragePlugin (some fun _ => (7 : Nat)) true (some "1")
        ⟨[], false⟩ []).mem = mapSet [] "1" 7 :=
  initial_persisted_after_delegation (some fun _ => 7) "1" ⟨[], false⟩ []
    (fun _ => 7) rfl rfl rfl rfl

/-- Claim C10: for `createStoragePlugin`, when a storage key resolves,
the adapter already holds a value for it, and downstream logic calls
none of `set`, `update` or `clear` on the handle, the middleware
invokes neither `adapter.write` nor `adapter.delete` after delegation —
the trace holds only the read, the downstream markers and the (empty)
post step — and the adapter's state is unchanged. -/
theorem storage_plugin_frame {T : Type} (ini : Option (Unit → T)) (pi : Bool)
    (k : String) (v : T) (d : Downstream T) (mem : SimpleMem T)
    (hv : mapGet mem k = some v) (hops : d.ops = []) :
    (runStoragePlugin ini pi (some k) d mem).trace
      = [Ev.readEv k (some v), Ev.nextCalled,
         if d.throws then Ev.nextThrew else Ev.nextOk, Ev.postStep]
  ∧ (runStoragePlugin ini pi (some k) d mem).mem = mem := by
  simp only [runStoragePlugin, hv, hops, List.foldl_nil]
  constructor <;> simp [initItemState, finallyStep]

/-- Claim C10 witness: the theorem with the adapter holding `5` at key
`"1"` and a downstream handler that performs no handle mutation. -/
theorem storage_plugin_frame_witness :
    (runStoragePlugin (none : Option (Unit → Nat)) true (some "1")
        ⟨[], false⟩ [("1", 5)]).trace
      = [Ev.readEv "1" (some 5), Ev.nextCalled, Ev.nextOk, Ev.postStep]
  ∧ (runStoragePlugin (none : Option (Unit → Nat)) true (some "1")
        ⟨[], false⟩ [("1", 5)]).mem = [("1", 5)] :=
  storage_plugin_frame none true "1" 5 ⟨[], false⟩ [("1", 5)] (by decide) rfl

/-- Claim C7: for every request in which a storage key resolves and
downstream logic clears the handle — for `createStoragePlugin`, the
final handle state is `cleared`; for the text-vault variant (whose
configured policy deletes on an empty, mutated collection), the
downstream mutations leave `(entries, dirty) = ([], true)` — the
lifecycle invokes the adapter's `delete(key)` at the post-delegation
step and a subsequent `read(key)` returns absent. -/
theorem lifecycle_clear_deletes {T : Type}
    (ini : Option (Unit → T)) (pi : Bool) (k : String) (d : Downstream T)
    (mem : SimpleMem T) (hnd : keysNodup mem)
    (hcl : (d.ops.foldl applyOp (initItemState (mapGet mem k) ini pi)).cleared = true)
    (tvK : String) (tvInit : Unit → TextVaultState) (tvOps : List VaultOp)
    (tvMem : SimpleMem TextVaultState) (now : Nat) (tvNd : keysNodup tvMem)
    (hend : tvOps.foldl vaultApply
        (((mapGet tvMem tvK).getD (tvInit ())).entries, false) = ([], true)) :
    Ev.deleteEv k ∈ (runStoragePlugin ini pi (some k) d mem).trace
  ∧ mapGet (runStoragePlugin ini pi (some k) d mem).mem k = none
  ∧ Ev.deleteEv tvK ∈ (runTextVault (some tvK) tvInit tvOps false tvMem now).trace
  ∧ mapGet (runTextVault (some tvK) tvInit tvOps false tvMem now).mem tvK = none := by
  have hfold := cleared_foldl d.ops (initItemState (mapGet mem k) ini pi)
    (by rw [initItemState_cleared]; intro hc; exact absurd hc (by simp)) hcl
  have hex : itemExists (d.ops.foldl applyOp (initItemState (mapGet mem k) ini pi))
      = false := by
    unfold itemExists
    rw [hfold.2]
    rfl
  refine ⟨?_, ?_, ?_, ?_⟩
  · simp only [runStoragePlugin]
    simp [finallyStep, hfold.1, hex]
  · simp only [runStoragePlugin]
    simp [finallyStep, hfold.1, hex, mapGet_mapDelete_self mem k hnd]
  · simp only [runTextVault]
    rw [hend]
    simp
  · simp only [runTextVault]
    rw [hend]
    simp [mapGet_mapDelete_self tvMem tvK tvNd]

/-- Claim C7 witness: the theorem applied to a `createStoragePlugin`
request whose downstream handler calls `clear()` on a stored value, and
a text-vault request whose downstream handler clears a vault holding
one entry. -/
theorem lifecycle_clear_deletes_witness :
    Ev.deleteEv "1" ∈ (runStoragePlugin (none : Option (Unit → Nat)) true (some "1")
        ⟨[ItemOp.clearOp], false⟩ [("1", 5)]).trace
  ∧ mapGet (runStoragePlugin (none : Option (Unit → Nat)) true (some "1")
        ⟨[ItemOp.clearOp], false⟩ [("1", 5)]).mem "1" = none
  ∧ Ev.deleteEv "9" ∈ (runTextVault (some "9") (fun _ => ⟨[], none⟩)
        [VaultOp.clearOp] false [("9", ⟨["a"], none⟩)] 0).trace
  ∧ mapGet (runTextVault (some "9") (fun _ => ⟨[], none⟩)
        [VaultOp.clearOp] false [("9", ⟨["a"], none⟩)] 0).mem "9" = none :=
  lifecycle_clear_deletes none true "1" ⟨[ItemOp.clearOp], false⟩ [("1", 5)]
    (by simp [keysNodup]) (by decide) "9" (fun _ => ⟨[], none⟩) [VaultOp.clearOp]
    [("9", ⟨["a"], none⟩)] 0 (by simp [keysNodup]) (by decide)

/-! ## Helper lemmas about lazy enumeration of the TTL adapter -/

theorem drop_tail_eq {α : Type} (l : List α) (n : Nat) :
    l.tail.drop n = l.drop (n + 1) := by
  rw [← List.drop_one, List.drop_drop, Nat.add_comm 1 n]

theorem mapDelete_sublist {α : Type} (m : List (String × α)) (k : String) :
    List.Sublist (mapDelete m k) m := by
  induction m with
  | nil => simp [mapDelete]
  | cons p rest ih =>
    obtain ⟨k0, v0⟩ := p
    by_cases h0 : k0 = k
    · rw [mapDelete_cons_eq rest k k0 v0 h0]
      exact (List.Sublist.refl rest).cons _
    · rw [mapDelete_cons_ne rest k k0 v0 h0]
      exact ih.cons₂ _

theorem keysNodup_mapDelete {α : Type} (m : List (String × α)) (k : String)
    (h : keysNodup m) : keysNodup (mapDelete m k) :=
  h.sublist ((mapDelete_sublist m k).map Prod.fst)

theorem mapGet_memRead_ne {T : Type} (a : MemoryStorageAdapter T) (now : Nat)
    (k k' : String) (h : k ≠ k') :
    mapGet (memRead a now k).2.store k' = mapGet a.store k' := by
  rcases hg : mapGet a.store k with _ | e
  · simp [memRead, hg]
  · rcases he : e.expiresAt with _ | x
    · simp [memRead, hg, he]
    · by_cases hc : x ≠ 0 ∧ x ≤ now
      · simp [memRead, hg, he, hc, mapGet_mapDelete_ne a.store k k' h]
      · simp [memRead, hg, he, hc]

theorem keysNodup_memRead {T : Type} (a : MemoryStorageAdapter T) (now : Nat)
    (k : String) (h : keysNodup a.store) : keysNodup (memRead a now k).2.store := by
  rcases hg : mapGet a.store k with _ | e
  · simpa [memRead, hg] using h
  · rcases he : e.expiresAt with _ | x
    · simpa [memRead, hg, he] using h
    · by_cases hc : x ≠ 0 ∧ x ≤ now
      · simpa [memRead, hg, he, hc] using keysNodup_mapDelete a.store k h
      · simpa [memRead, hg, he, hc] using h

theorem keys_iterEntriesAux_subset {T : Type} (ks : List String) (ts : List Nat)
    (a : MemoryStorageAdapter T) (k' : String)
    (h : k' ∈ (iterEntriesAux ks ts a).1.map Prod.fst) : k' ∈ ks := by
  induction ks generalizing ts a with
  | nil => simp [iterEntriesAux] at h
  | cons k ks ih =>
    simp only [iterEntriesAux] at h
    rcases hr : (memRead a (ts.headD 0) k).1 with _ | v
    · rw [hr] at h
      exact List.mem_cons_of_mem _ (ih ts.tail _ h)
    · rw [hr] at h
      simp only [List.map_cons, List.mem_cons] at h
      rcases h with h | h
      · simp [h]
      · exact List.mem_cons_of_mem _ (ih ts.tail _ h)

theorem mapGet_iterEntriesAux_not_mem {T : Type} (ks : List String) (ts : List Nat)
    (a : MemoryStorageAdapter T) (k : String) (hk : k ∉ ks) :
    mapGet (iterEntriesAux ks ts a).2.store k = mapGet a.store k := by
  induction ks generalizing ts a with
  | nil => simp [iterEntriesAux]
  | cons k1 ks ih =>
    simp only [List.mem_cons, not_or] at hk
    have hne : k1 ≠ k := fun h => hk.1 h.symm
    simp only [iterEntriesAux]
    rcases hr : (memRead a (ts.headD 0) k1).1 with _ | v
    · simp only [hr]
      rw [ih ts.tail _ hk.2]
      exact mapGet_memRead_ne a _ k1 k hne
    · simp only [hr]
      rw [ih ts.tail _ hk.2]
      exact mapGet_memRead_ne a _ k1 k hne

theorem iterKeysAux_eq {T : Type} (ks : List String) (ts : List Nat)
    (a : MemoryStorageAdapter T) :
    iterKeysAux ks ts a
      = ((iterEntriesAux ks ts a).1.map Prod.fst, (iterEntriesAux ks ts a).2) := by
  induction ks generalizing ts a with
  | nil => rfl
  | cons k ks ih =>
    simp only [iterKeysAux, iterEntriesAux]
    rcases hr : (memRead a (ts.headD 0) k).1 with _ | v
    · simp only [hr, ih]
    · simp only [hr, ih, List.map_cons]

theorem iterValuesAux_eq {T : Type} (ks : List String) (ts : List Nat)
    (a : MemoryStorageAdapter T) :
    iterValuesAux ks ts a
      = ((iterEntriesAux ks ts a).1.map Prod.snd, (iterEntriesAux ks ts a).2) := by
  induction ks generalizing ts a with
  | nil => rfl
  | cons k ks ih =>
    simp only [iterValuesAux, iterEntriesAux]
    rcases hr : (memRead a (ts.headD 0) k).1 with _ | v
    · simp only [hr, ih]
    · simp only [hr, ih, List.map_cons]

theorem iterEntriesAux_expired_excluded {T : Type} (ks₁ : List String) :
    ∀ (ks₂ : List String) (k : String) (ts : List Nat) (a : MemoryStorageAdapter T)
      (e : MemoryEntry T) (x : Nat),
      keysNodup a.store → k ∉ ks₁ → k ∉ ks₂ →
      mapGet a.store k = some e →
      e.expiresAt = some x → x ≠ 0 →
      x ≤ (ts.drop ks₁.length).headD 0 →
      k ∉ (iterEntriesAux (ks₁ ++ k :: ks₂) ts a).1.map Prod.fst
    ∧ mapGet (iterEntriesAux (ks₁ ++ k :: ks₂) ts a).2.store k = none := by
  induction ks₁ with
  | nil =>
    intro ks₂ k ts a e x hnd _ hk2 hget hexp hx0 hxt
    have hxt0 : x ≤ ts.headD 0 := by simpa using hxt
    have hread : memRead a (ts.headD 0) k
        = (none, { a with store := mapDelete a.store k }) := by
      simp only [memRead, hget, hexp]
      rw [if_pos ⟨hx0, hxt0⟩]
    simp only [List.nil_append, iterEntriesAux, hread]
    constructor
    · intro hmem
      exact hk2 (keys_iterEntriesAux_subset ks₂ ts.tail _ k hmem)
    · rw [mapGet_iterEntriesAux_not_mem ks₂ ts.tail _ k hk2]
      exact mapGet_mapDelete_self a.store k hnd
  | cons k1 ks₁ ih =>
    intro ks₂ k ts a e x hnd hk1 hk2 hget hexp hx0 hxt
    simp only [List.mem_cons, not_or] at hk1
    have hne : k1 ≠ k := fun h => hk1.1 h.symm
    have hget' : mapGet (memRead a (ts.headD 0) k1).2.store k = some e := by
      rw [mapGet_memRead_ne a _ k1 k hne]
      exact hget
    have hnd' : keysNodup (memRead a (ts.headD 0) k1).2.store :=
      keysNodup_memRead a _ k1 hnd
    have hxt' : x ≤ (ts.tail.drop ks₁.length).headD 0 := by
      rw [drop_tail_eq]
      simpa using hxt
    have IH := ih ks₂ k ts.tail (memRead a (ts.headD 0) k1).2 e x hnd'
      hk1.2 hk2 hget' hexp hx0 hxt'
    simp only [List.cons_append, iterEntriesAux]
    rcases hr : (memRead a (ts.headD 0) k1).1 with _ | v
    · simp only [hr]
      exact IH
    · simp only [hr, List.map_cons]
      refine ⟨?_, IH.2⟩
      simp only [List.mem_cons, not_or]
      exact ⟨hk1.1, IH.1⟩

theorem mapGet_append_cons {α : Type} (s₁ s₂ : List (String × α)) (k : String) (e : α)
    (h : k ∉ s₁.map Prod.fst) : mapGet (s₁ ++ (k, e) :: s₂) k = some e := by
  induction s₁ with
  | nil => simp [mapGet]
  | cons p rest ih =>
    obtain ⟨k0, v0⟩ := p
    simp only [List.map_cons, List.mem_cons, not_or] at h
    rw [List.cons_append, mapGet_cons_ne _ k k0 v0 (fun hh => h.1 hh.symm)]
    exact ih h.2

/-! ## Claim about lazy enumeration: C8 -/

/-- Claim C8: for the TTL in-memory adapter, for every key `k` whose
entry's expiry condition holds at the moment the enumeration reaches it
(its per-step clock value), the sequence produced by `readAllKeys()`
excludes `k` (likewise no entry of `readAllEntries()` carries key `k`,
and `readAllValues()` yields exactly the values of `readAllEntries()`)
even though no explicit delete occurred; expiry is re-checked per key at
iteration time via `read`, so the entry is also removed from the backing
map from that point on. -/
theorem readAll_excludes_expired {T : Type} (a : MemoryStorageAdapter T)
    (ts : List Nat) (s₁ s₂ : List (String × MemoryEntry T)) (k : String)
    (e : MemoryEntry T) (x : Nat)
    (hstore : a.store = s₁ ++ (k, e) :: s₂)
    (hnd : keysNodup a.store)
    (hexp : e.expiresAt = some x) (hx0 : x ≠ 0)
    (hxt : x ≤ (ts.drop s₁.length).headD 0) :
    k ∉ (readAllKeys a ts).1
  ∧ k ∉ (readAllEntries a ts).1.map Prod.fst
  ∧ (readAllValues a ts).1 = (readAllEntries a ts).1.map Prod.snd
  ∧ mapGet (readAllEntries a ts).2.store k = none := by
  have hkeys : a.store.map Prod.fst = s₁.map Prod.fst ++ k :: s₂.map Prod.fst := by
    rw [hstore]
    simp
  have hnd' : (s₁.map Prod.fst ++ k :: s₂.map Prod.fst).Nodup := by
    rw [← hkeys]
    exact hnd
  obtain ⟨hn1, hn2, hdisj⟩ := List.nodup_append.mp hnd'
  have hk1 : k ∉ s₁.map Prod.fst := fun hk => hdisj hk (List.mem_cons_self k _)
  have hk2 : k ∉ s₂.map Prod.fst := (List.nodup_cons.mp hn2).1
  have hget : mapGet a.store k = some e := by
    rw [hstore]
    exact mapGet_append_cons s₁ s₂ k e hk1
  have hxt' : x ≤ (ts.drop (s₁.map Prod.fst).length).headD 0 := by
    rw [List.length_map]
    exact hxt
  have main := iterEntriesAux_expired_excluded (s₁.map Prod.fst) (s₂.map Prod.fst)
    k ts a e x hnd hk1 hk2 hget hexp hx0 hxt'
  refine ⟨?_, ?_, ?_, ?_⟩
  · rw [readAllKeys, hkeys, iterKeysAux_eq]
    exact main.1
  · rw [readAllEntries, hkeys]
    exact main.1
  · rw [readAllValues, readAllEntries, hkeys, iterValuesAux_eq]
  · rw [readAllEntries, hkeys]
    exact main.2

/-- Claim C8 witness: the theorem applied to a two-entry store in which
the second entry (key `"k"`, expiry time 3) is unexpired when the
enumeration is created (clock 0) but expired by the time the iteration
reaches it (clock 5). -/
theorem readAll_excludes_expired_witness :
    "k" ∉ (readAllKeys ⟨TTLOption.unset,
        [("a", ⟨(1 : Nat), some 10⟩), ("k", ⟨2, some 3⟩)]⟩ [0, 5]).1
  ∧ "k" ∉ (readAllEntries ⟨TTLOption.unset,
        [("a", ⟨(1 : Nat), some 10⟩), ("k", ⟨2, some 3⟩)]⟩ [0, 5]).1.map Prod.fst
  ∧ (readAllValues ⟨TTLOption.unset,
        [("a", ⟨(1 : Nat), some 10⟩), ("k", ⟨2, some 3⟩)]⟩ [0, 5]).1
      = (readAllEntries ⟨TTLOption.unset,
        [("a", ⟨(1 : Nat), some 10⟩), ("k", ⟨2, some 3⟩)]⟩ [0, 5]).1.map Prod.snd
  ∧ mapGet (readAllEntries ⟨TTLOption.unset,
        [("a", ⟨(1 : Nat), some 10⟩), ("k", ⟨2, some 3⟩)]⟩ [0, 5]).2.store "k" = none :=
  readAll_excludes_expired _ [0, 5] [("a", ⟨1, some 10⟩)] [] "k" ⟨2, some 3⟩ 3
    rfl (by simp [keysNodup]) rfl (by decide) (by decide)

end GrammySep
